import Mathlib

/-!
Verification of the plox repository (a Python tree-walking interpreter for
the Lox language) against its natural-language specification.

The repository's `src/` holds `plox/main.py` (the driver: `run`, `run_file`,
`run_prompt`, `__main__`) and `plox/pprinter.py` (the `LispPrinter` visitor).
Those two files are embedded faithfully below.  The remaining modules of the
pipeline (`scanner.py`, `parser.py`, `resolver.py`, `interpret.py`,
`tokens.py`, `ast.py`, `errors.py`) are not in `src/`; every definition for
them carries a doc comment starting `Modelled from the spec:` and follows the
specification's wording.
-/

namespace Plox

/-- Modelled from the spec: `tokens.py` is absent from `src/`.  The closed set
of token kinds from the spec's data model section. -/
inductive TokenKind where
  | lparen | rparen | lbrace | rbrace | comma | dot | minus | plus
  | semicolon | slash | star
  | bang | bangEqual | equal | equalEqual | greater | greaterEqual
  | less | lessEqual
  | identKind | stringKind | numberKind
  | kwAnd | kwClass | kwElse | kwFalse | kwFun | kwFor | kwIf | kwNil
  | kwOr | kwPrint | kwReturn | kwSuper | kwThis | kwTrue | kwVar | kwWhile
  | eof
deriving DecidableEq, Repr

/-- Modelled from the spec: numbers are IEEE doubles in the source.  They are
modelled as unnormalized rationals — numerator and positive denominator,
compared by cross-multiplication — which is exact for every numeric
computation this development evaluates (decimal literals and field
operations on them). -/
structure LoxNum where
  num : Int
  den : Nat
deriving DecidableEq, Repr

namespace LoxNum

def add (a b : LoxNum) : LoxNum :=
  ⟨a.num * b.den + b.num * a.den, a.den * b.den⟩

def sub (a b : LoxNum) : LoxNum :=
  ⟨a.num * b.den - b.num * a.den, a.den * b.den⟩

def mul (a b : LoxNum) : LoxNum :=
  ⟨a.num * b.num, a.den * b.den⟩

/-- Division.  Division by zero is host-dependent per the spec ("follows the
host's double-precision semantics"); it is modelled as 0 and exercised by no
claim. -/
def div (a b : LoxNum) : LoxNum :=
  if b.num = 0 then ⟨0, 1⟩
  else if b.num < 0 then ⟨-(a.num * b.den), a.den * b.num.natAbs⟩
  else ⟨a.num * b.den, a.den * b.num.natAbs⟩

def neg (a : LoxNum) : LoxNum := ⟨-a.num, a.den⟩

def beq (a b : LoxNum) : Bool := a.num * b.den == b.num * a.den

def blt (a b : LoxNum) : Bool := decide (a.num * b.den < b.num * a.den)

def ble (a b : LoxNum) : Bool := decide (a.num * b.den ≤ b.num * a.den)

def isIntegral (a : LoxNum) : Bool := a.num % (a.den : Int) == 0

def intVal (a : LoxNum) : Int := a.num / (a.den : Int)

end LoxNum

/-- Modelled from the spec: a token's literal payload is "number (double),
string, boolean, nil, or absent". -/
inductive Lit where
  | num (q : LoxNum)
  | str (s : String)
  | bool (b : Bool)
  | nil
deriving DecidableEq, Repr

/-- Modelled from the spec: `Token` is `{kind, lexeme, literal, line}`;
`none` is the absent literal. -/
structure Token where
  kind : TokenKind
  lexeme : String
  literal : Option Lit
  line : Nat
deriving DecidableEq, Repr

/-- Modelled from the spec: `tokens.py` is absent, so the `str()` form of a
`Token` object (which `LispPrinter.visit_unary` interpolates) is not given by
the source under `src/`.  It is modelled as a rendering of the token's fields
in order, which in particular differs from the bare lexeme. -/
def tokenStr (t : Token) : String :=
  "Token(" ++ reprStr t.kind ++ ", " ++ t.lexeme ++ ", " ++ toString t.line ++ ")"

/-- Shortest terminating decimal expansion of a non-integral number whose
scaled numerator clears the denominator at some power of ten, e.g. `5/2` to
`"2.5"`. -/
def decimalOfNum (q : LoxNum) : Option String :=
  match (List.range 40).find?
      (fun k => q.num.natAbs * 10 ^ (k + 1) % q.den = 0) with
  | some k =>
      let e := k + 1
      let scaled := q.num.natAbs * 10 ^ e / q.den
      let s := toString scaled
      let s := if s.length ≤ e then
          String.mk (List.replicate (e + 1 - s.length) '0') ++ s
        else s
      some ((if q.num < 0 then "-" else "")
        ++ s.take (s.length - e) ++ "." ++ s.drop (s.length - e))
  | none => none

/-- Modelled from the spec: Python's `str()` on a float stored by the scanner.
The scanner stores every numeric literal as a double, so an integral literal
like `1` prints as `1.0`; non-integral values print as their decimal
expansion (the host default, which the spec leaves host-dependent for
extreme values). -/
def pyFloatStr (q : LoxNum) : String :=
  if q.isIntegral then toString q.intVal ++ ".0"
  else (decimalOfNum q).getD (toString q.num ++ "/" ++ toString q.den)

mutual
/-- Modelled from the spec: the expression AST variants.  `Variable`,
`Assign`, `This` and `Super` carry the stable per-node id the spec's design
notes call for ("A stable per-node id assigned at parse time"), which keys
the resolver's scope-depth map. -/
inductive Expr where
  | literal (value : Lit)
  | grouping (expression : Expr)
  | unary (operator : Token) (right : Expr)
  | binary (operator : Token) (left right : Expr)
  | logical (operator : Token) (left right : Expr)
  | variable (name : Token) (id : Nat)
  | assign (name : Token) (value : Expr) (id : Nat)
  | call (callee : Expr) (paren : Token) (arguments : ExprList)
  | get (object : Expr) (name : Token)
  | set (object : Expr) (name : Token) (value : Expr)
  | this (keyword : Token) (id : Nat)
  | super (keyword : Token) (method : Token) (id : Nat)

inductive ExprList where
  | nil
  | cons (e : Expr) (rest : ExprList)

/-- Modelled from the spec: the statement AST variants. -/
inductive Stmt where
  | expression (expr : Expr)
  | print (expr : Expr)
  | var (name : Token) (initializer : Option Expr)
  | block (statements : StmtList)
  | ifS (condition : Expr) (thenBranch : Stmt) (elseBranch : Option Stmt)
  | whileS (condition : Expr) (body : Stmt)
  | func (name : Token) (params : List Token) (body : StmtList)
  | ret (keyword : Token) (value : Option Expr)
  | classS (name : Token) (superclass : Option (Token × Nat))
      (methods : StmtList)

inductive StmtList where
  | nil
  | cons (s : Stmt) (rest : StmtList)
end

def ExprList.toList : ExprList → List Expr
  | .nil => []
  | .cons e r => e :: r.toList

def StmtList.toList : StmtList → List Stmt
  | .nil => []
  | .cons s r => s :: r.toList

def StmtList.length (l : StmtList) : Nat := l.toList.length

/-- A program, as returned by the parser: the accumulated statement list. -/
abbrev Program := StmtList

/-! ## The Lisp pretty printer, embedded from `src/plox/pprinter.py`.

The printer's only state is the mutable `self.indent` field; each visit
method is embedded as a function from the current indent to the produced
string together with the indent left behind, so the Python field updates
(`self.indent += 4` / `-= 4`) become explicit state threading.  Python
evaluates `self.print_indent(stmt.accept(self))` by running the accept first
and reading `self.indent` afterwards; the embedding reproduces that order. -/

/-- `LispPrinter.print_indent`: prefix with `indent` spaces. -/
def printIndent (indent : Nat) (s : String) : String :=
  String.mk (List.replicate indent ' ') ++ s

/-- `LispPrinter.visit_literal`: nil/true/false keywords, strings quoted,
anything else via Python `str()` (numbers are the only remaining case). -/
def visitLiteral : Lit → String
  | .nil => "nil"
  | .bool true => "true"
  | .bool false => "false"
  | .str s => "\"" ++ s ++ "\""
  | .num q => pyFloatStr q

mutual
/-- The expression visitor methods of `LispPrinter`, state-passing in the
`indent` field.  Dispatch (`expr.accept(self)`) is the match. -/
def visitExpr : Expr → Nat → String × Nat
  | .literal v, i => (visitLiteral v, i)
  | .grouping e, i =>
      let (s, i1) := visitExpr e i
      ("(grouping " ++ s ++ ")", i1)
  | .unary op r, i =>
      let (s, i1) := visitExpr r i
      ("(" ++ tokenStr op ++ " " ++ s ++ ")", i1)
  | .binary op l r, i =>
      let (ls, i1) := visitExpr l i
      let (rs, i2) := visitExpr r i1
      ("(" ++ op.lexeme ++ " " ++ ls ++ " " ++ rs ++ ")", i2)
  | .logical op l r, i =>
      let (ls, i1) := visitExpr l i
      let (rs, i2) := visitExpr r i1
      ("(" ++ op.lexeme ++ " " ++ ls ++ " " ++ rs ++ ")", i2)
  | .variable name _, i => (name.lexeme, i)
  | .assign name v _, i =>
      let (s, i1) := visitExpr v i
      ("(assign " ++ name.lexeme ++ " " ++ s ++ ")", i1)
  | .call callee _ args, i =>
      let (cs, i1) := visitExpr callee i
      let s0 := "(call " ++ cs
      if args.toList.length > 0 then
        let (lines, i2) := visitArgLines args (i1 + 4)
        (s0 ++ "\n" ++ String.intercalate "\n" lines ++ ")", i2 - 4)
      else (s0 ++ ")", i1)
  | .get o name, i =>
      let (s, i1) := visitExpr o i
      ("(get " ++ s ++ " " ++ name.lexeme ++ ")", i1)
  | .set o name v, i =>
      let (os, i1) := visitExpr o i
      let (vs, i2) := visitExpr v i1
      ("(set " ++ os ++ " " ++ name.lexeme ++ " " ++ vs ++ ")", i2)
  | .this _ _, i => ("this", i)
  | .super kw m _, i => ("(" ++ kw.lexeme ++ " " ++ m.lexeme ++ ")", i)

/-- The comprehension `[self.print_indent(arg.accept(self)) for arg in
expr.arguments]` in `visit_call`: each element is rendered and then prefixed
with the indent as it stands after that render. -/
def visitArgLines : ExprList → Nat → List String × Nat
  | .nil, i => ([], i)
  | .cons e r, i =>
      let (s, i1) := visitExpr e i
      let line := printIndent i1 s
      let (rest, i2) := visitArgLines r i1
      (line :: rest, i2)

/-- The statement visitor methods of `LispPrinter`. -/
def visitStmt : Stmt → Nat → String × Nat
  | .expression e, i => visitExpr e i
  | .print e, i =>
      let (s, i1) := visitExpr e i
      ("(print " ++ s ++ ")", i1)
  | .var name none, i => ("(var " ++ name.lexeme ++ ")", i)
  | .var name (some init), i =>
      let (s, i1) := visitExpr init i
      ("(var " ++ name.lexeme ++ " " ++ s ++ ")", i1)
  | .block stmts, i =>
      if stmts.toList.length > 0 then
        let (lines, i1) := visitStmtLines stmts (i + 4)
        ("(block\n" ++ String.intercalate "\n" lines ++ ")", i1 - 4)
      else ("(block)", i)
  | .ifS cond thenB elseB, i =>
      let (cs, i1) := visitExpr cond i
      let (ts, i2) := visitStmt thenB (i1 + 4)
      let thenLine := printIndent i2 ts
      let i3 := i2 - 4
      (match elseB with
       | none => ("(if " ++ cs ++ "\n" ++ thenLine ++ ")", i3)
       | some e =>
          let (es, i4) := visitStmt e i3
          let elseLine := printIndent i4 es
          ("(if " ++ cs ++ "\n" ++ thenLine ++ "\n" ++ elseLine ++ ")", i4))
  | .whileS cond body, i =>
      let (cs, i1) := visitExpr cond i
      let (bs, i2) := visitStmt body (i1 + 4)
      let bodyLine := printIndent i2 bs
      ("(while " ++ cs ++ "\n" ++ bodyLine ++ ")", i2 - 4)
  | .func name params body, i =>
      let header := "(func " ++ name.lexeme ++ " ("
        ++ String.intercalate " " (params.map Token.lexeme) ++ ")"
      let (lines, i1) := visitStmtLines body (i + 4)
      (header ++ "\n" ++ String.intercalate "\n" lines ++ ")", i1 - 4)
  | .ret _ none, i => ("(return)", i)
  | .ret _ (some v), i =>
      let (s, i1) := visitExpr v i
      ("(return " ++ s ++ ")", i1)
  | .classS name sup methods, i =>
      let s0 := "(class " ++ name.lexeme
      let s1 := match sup with
        | none => s0
        | some (supName, _) => s0 ++ " (< " ++ supName.lexeme ++ ")"
      if methods.toList.length > 0 then
        let (lines, i1) := visitStmtLines methods (i + 4)
        (s1 ++ "\n" ++ String.intercalate "\n" lines ++ ")", i1 - 4)
      else (s1 ++ ")", i)

/-- The comprehension rendering a statement list with `print_indent`
(`visit_block`, `visit_function`, `visit_class`). -/
def visitStmtLines : StmtList → Nat → List String × Nat
  | .nil, i => ([], i)
  | .cons s r, i =>
      let (str, i1) := visitStmt s i
      let line := printIndent i1 str
      let (rest, i2) := visitStmtLines r i1
      (line :: rest, i2)
end

/-- `LispPrinter.print_program`: a fresh printer (indent 0) renders each
top-level statement in turn and joins the results with newlines.  The indent
is threaded from one statement to the next exactly as the mutable field is. -/
def printProgramAux : StmtList → Nat → List String × Nat
  | .nil, i => ([], i)
  | .cons s r, i =>
      let (str, i1) := visitStmt s i
      let (rest, i2) := printProgramAux r i1
      (str :: rest, i2)

def printProgram (p : Program) : String :=
  String.intercalate "\n" (printProgramAux p 0).1

/-! ## Scanner.

Modelled from the spec: `scanner.py` is absent from `src/`.  The spec fixes
the interface: source string to token sequence terminated by an `EOF` token;
whitespace and `//` line comments discarded; strings with no escapes that may
span lines (each newline bumps the line counter); numbers `DIGIT+ ('.'
DIGIT+)?`; identifiers `[A-Za-z_][A-Za-z0-9_]*` with keywords by table
lookup; unterminated strings and unexpected characters reported to the error
sink while scanning continues. -/

def isDigitCh (c : Char) : Bool := c.isDigit

def isAlphaCh (c : Char) : Bool := c.isAlpha || c = '_'

def isAlphaNumCh (c : Char) : Bool := isAlphaCh c || isDigitCh c

/-- Modelled from the spec: the keyword table. -/
def keywordKind (s : String) : Option TokenKind :=
  match s with
  | "and" => some .kwAnd
  | "class" => some .kwClass
  | "else" => some .kwElse
  | "false" => some .kwFalse
  | "fun" => some .kwFun
  | "for" => some .kwFor
  | "if" => some .kwIf
  | "nil" => some .kwNil
  | "or" => some .kwOr
  | "print" => some .kwPrint
  | "return" => some .kwReturn
  | "super" => some .kwSuper
  | "this" => some .kwThis
  | "true" => some .kwTrue
  | "var" => some .kwVar
  | "while" => some .kwWhile
  | _ => none

def digitsToNat (ds : List Char) : Nat :=
  ds.foldl (fun acc c => acc * 10 + (c.toNat - '0'.toNat)) 0

/-- Numeric literal value: integer part plus fractional digits over a power
of ten (the double value of the lexeme, modelled exactly). -/
def numLitValue (intPart fracPart : List Char) : LoxNum :=
  ⟨digitsToNat intPart * 10 ^ fracPart.length + digitsToNat fracPart,
   10 ^ fracPart.length⟩

/-- Scanner error report, written to the error sink:
`[line N] Error: message`. -/
def scanErr (line : Nat) (msg : String) : String :=
  "[line " ++ toString line ++ "] Error: " ++ msg

def mkTok (kind : TokenKind) (lexeme : String) (lit : Option Lit)
    (line : Nat) : Token :=
  ⟨kind, lexeme, lit, line⟩

/-- One-or-two character operator dispatch plus the single-character
tokens. -/
def scanStep (fuel : Nat) (cs : List Char) (line : Nat) :
    List Token × List String :=
  match fuel, cs with
  | _, [] => ([mkTok .eof "" none line], [])
  | 0, _ => ([mkTok .eof "" none line], [])
  | fuel + 1, c :: rest =>
    let simple := fun (k : TokenKind) =>
      let (ts, es) := scanStep fuel rest line
      (mkTok k (String.mk [c]) none line :: ts, es)
    let twoChar := fun (k1 k2 : TokenKind) (c2 : Char) =>
      match rest with
      | c' :: rest' =>
        if c' = c2 then
          let (ts, es) := scanStep fuel rest' line
          (mkTok k2 (String.mk [c, c2]) none line :: ts, es)
        else simple k1
      | [] => simple k1
    if c = '(' then simple .lparen
    else if c = ')' then simple .rparen
    else if c = '{' then simple .lbrace
    else if c = '}' then simple .rbrace
    else if c = ',' then simple .comma
    else if c = '.' then simple .dot
    else if c = '-' then simple .minus
    else if c = '+' then simple .plus
    else if c = ';' then simple .semicolon
    else if c = '*' then simple .star
    else if c = '!' then twoChar .bang .bangEqual '='
    else if c = '=' then twoChar .equal .equalEqual '='
    else if c = '<' then twoChar .less .lessEqual '='
    else if c = '>' then twoChar .greater .greaterEqual '='
    else if c = '/' then
      match rest with
      | '/' :: rest' =>
          let remaining := rest'.dropWhile (fun ch => ch ≠ '\n')
          scanStep fuel remaining line
      | _ => simple .slash
    else if c = ' ' ∨ c = '\r' ∨ c = '\t' then scanStep fuel rest line
    else if c = '\n' then scanStep fuel rest (line + 1)
    else if c = '"' then
      let body := rest.takeWhile (fun ch => ch ≠ '"')
      let newLine := line + (body.filter (fun ch => ch = '\n')).length
      match rest.dropWhile (fun ch => ch ≠ '"') with
      | _ :: rest' =>
          let lexeme := String.mk ('"' :: body ++ ['"'])
          let (ts, es) := scanStep fuel rest' newLine
          (mkTok .stringKind lexeme (some (.str (String.mk body))) newLine
            :: ts, es)
      | [] =>
          ([mkTok .eof "" none newLine],
           [scanErr newLine "Unterminated string."])
    else if isDigitCh c then
      let intPart := c :: rest.takeWhile isDigitCh
      let afterInt := rest.dropWhile isDigitCh
      let (fracPart, remaining) :=
        match afterInt with
        | '.' :: d :: more =>
            if isDigitCh d then
              let frac := d :: more.takeWhile isDigitCh
              (frac, more.dropWhile isDigitCh)
            else ([], afterInt)
        | _ => ([], afterInt)
      let lexeme := String.mk
        (intPart ++ (if fracPart.isEmpty then [] else '.' :: fracPart))
      let value := numLitValue intPart fracPart
      let (ts, es) := scanStep fuel remaining line
      (mkTok .numberKind lexeme (some (.num value)) line :: ts, es)
    else if isAlphaCh c then
      let name := String.mk (c :: rest.takeWhile isAlphaNumCh)
      let remaining := rest.dropWhile isAlphaNumCh
      let kind := (keywordKind name).getD .identKind
      let (ts, es) := scanStep fuel remaining line
      (mkTok kind name none line :: ts, es)
    else
      let (ts, es) := scanStep fuel rest line
      (ts, scanErr line "Unexpected character." :: es)

/-- `Scanner.scan_tokens`: the whole source to a token list ending in `EOF`,
together with the error messages reported to the sink. -/
def scanTokens (source : String) : List Token × List String :=
  scanStep (source.length + 1) source.toList 1

/-! ## Parser.

Modelled from the spec: `parser.py` is absent from `src/`.  Recursive descent
with single-token lookahead over the scanner's token list; precedence
assignment → or → and → equality → comparison → term → factor → unary → call
→ primary; `for` desugared to while; panic-mode recovery via synchronize;
errors accumulate in the state so the driver can refuse to execute.  A
thrown parse error keeps the tokens consumed so far, as the source's
exception does, so the parser state lives under the exception monad. -/

structure PState where
  toks : List Token
  prev : Token
  errs : List String
  nextId : Nat

/-- The parser monad: possible parse-error escape over mutable parser
state. -/
abbrev PM (α : Type) := ExceptT Unit (StateM PState) α

/-- Parse error report: `[line N] Error at 'lex': message`, or `at end` for
the EOF token. -/
def parseErrMsg (t : Token) (msg : String) : String :=
  if t.kind = .eof then
    "[line " ++ toString t.line ++ "] Error at end: " ++ msg
  else
    "[line " ++ toString t.line ++ "] Error at '" ++ t.lexeme ++ "': " ++ msg

def peekT : PM Token := do
  let st ← get
  match st.toks with
  | t :: _ => pure t
  | [] => pure (mkTok .eof "" none 0)

def prevT : PM Token := do pure (← get).prev

def atEnd : PM Bool := do pure ((← peekT).kind = .eof)

/-- `advance()`: consume and return the current token (sticks at `EOF`). -/
def advanceT : PM Token := do
  let st ← get
  match st.toks with
  | t :: rest =>
      if t.kind = .eof then pure st.prev
      else do
        set { st with toks := rest, prev := t }
        pure t
  | [] => pure st.prev

def checkK (k : TokenKind) : PM Bool := do pure ((← peekT).kind = k)

def matchK (k : TokenKind) : PM Bool := do
  if (← checkK k) then do
    let _ ← advanceT
    pure true
  else pure false

/-- `error()`: report to the sink (no throw). -/
def reportErr (t : Token) (msg : String) : PM Unit :=
  modify fun st => { st with errs := st.errs ++ [parseErrMsg t msg] }

/-- report then panic (the thrown `ParseError`). -/
def raiseP (t : Token) (msg : String) : PM α := do
  reportErr t msg
  throw ()

def consumeK (k : TokenKind) (msg : String) : PM Token := do
  if (← checkK k) then advanceT
  else do raiseP (← peekT) msg

/-- `match(k1, k2, ...)`: first kind that checks is consumed; later kinds are
not tried (Python's short-circuiting `or`). -/
def matchAny : List TokenKind → PM Bool
  | [] => pure false
  | k :: ks => do
      if (← matchK k) then pure true else matchAny ks

/-- The stable per-node id handed out at parse time. -/
def freshId : PM Nat := do
  let st ← get
  set { st with nextId := st.nextId + 1 }
  pure st.nextId

/-- Fuel exhaustion of the model (the Python parser has no such bound);
recorded so it is never mistaken for a real parse. -/
def fuelFail : PM α := do
  modify fun st => { st with errs := st.errs ++ ["[internal] out of fuel"] }
  throw ()

/-- `synchronize()`: discard tokens to a statement boundary. -/
def synchronize : Nat → PM Unit
  | 0 => pure ()
  | fuel + 1 => do
      let _ ← advanceT
      let rec loop : Nat → PM Unit
        | 0 => pure ()
        | f + 1 => do
            if (← atEnd) then pure ()
            else if (← prevT).kind = .semicolon then pure ()
            else
              let k := (← peekT).kind
              if k = .kwClass ∨ k = .kwFun ∨ k = .kwVar ∨ k = .kwFor ∨
                  k = .kwIf ∨ k = .kwWhile ∨ k = .kwPrint ∨ k = .kwReturn then
                pure ()
              else do
                let _ ← advanceT
                loop f
      loop fuel

mutual

def parseExpression : Nat → PM Expr
  | 0 => fuelFail
  | fuel + 1 => parseAssignment fuel

def parseAssignment : Nat → PM Expr
  | 0 => fuelFail
  | fuel + 1 => do
      let expr ← parseOr fuel
      if (← matchK .equal) then do
        let equals ← prevT
        let value ← parseAssignment fuel
        match expr with
        | .variable name _ => do
            let i ← freshId
            pure (.assign name value i)
        | .get obj name => pure (.set obj name value)
        | _ => do
            reportErr equals "Invalid assignment target."
            pure expr
      else pure expr

def parseOr : Nat → PM Expr
  | 0 => fuelFail
  | fuel + 1 => do
      let left ← parseAnd fuel
      parseOrRest fuel left

def parseOrRest : Nat → Expr → PM Expr
  | 0, _ => fuelFail
  | fuel + 1, left => do
      if (← matchK .kwOr) then do
        let op ← prevT
        let right ← parseAnd fuel
        parseOrRest fuel (.logical op left right)
      else pure left

def parseAnd : Nat → PM Expr
  | 0 => fuelFail
  | fuel + 1 => do
      let left ← parseEquality fuel
      parseAndRest fuel left

def parseAndRest : Nat → Expr → PM Expr
  | 0, _ => fuelFail
  | fuel + 1, left => do
      if (← matchK .kwAnd) then do
        let op ← prevT
        let right ← parseEquality fuel
        parseAndRest fuel (.logical op left right)
      else pure left

def parseEquality : Nat → PM Expr
  | 0 => fuelFail
  | fuel + 1 => do
      let left ← parseComparison fuel
      parseEqualityRest fuel left

def parseEqualityRest : Nat → Expr → PM Expr
  | 0, _ => fuelFail
  | fuel + 1, left => do
      if (← matchAny [.bangEqual, .equalEqual]) then do
        let op ← prevT
        let right ← parseComparison fuel
        parseEqualityRest fuel (.binary op left right)
      else pure left

def parseComparison : Nat → PM Expr
  | 0 => fuelFail
  | fuel + 1 => do
      let left ← parseTerm fuel
      parseComparisonRest fuel left

def parseComparisonRest : Nat → Expr → PM Expr
  | 0, _ => fuelFail
  | fuel + 1, left => do
      if (← matchAny [.greater, .greaterEqual, .less, .lessEqual]) then do
        let op ← prevT
        let right ← parseTerm fuel
        parseComparisonRest fuel (.binary op left right)
      else pure left

def parseTerm : Nat → PM Expr
  | 0 => fuelFail
  | fuel + 1 => do
      let left ← parseFactor fuel
      parseTermRest fuel left

def parseTermRest : Nat → Expr → PM Expr
  | 0, _ => fuelFail
  | fuel + 1, left => do
      if (← matchAny [.minus, .plus]) then do
        let op ← prevT
        let right ← parseFactor fuel
        parseTermRest fuel (.binary op left right)
      else pure left

def parseFactor : Nat → PM Expr
  | 0 => fuelFail
  | fuel + 1 => do
      let left ← parseUnary fuel
      parseFactorRest fuel left

def parseFactorRest : Nat → Expr → PM Expr
  | 0, _ => fuelFail
  | fuel + 1, left => do
      if (← matchAny [.slash, .star]) then do
        let op ← prevT
        let right ← parseUnary fuel
        parseFactorRest fuel (.binary op left right)
      else pure left

def parseUnary : Nat → PM Expr
  | 0 => fuelFail
  | fuel + 1 => do
      if (← matchAny [.bang, .minus]) then do
        let op ← prevT
        let right ← parseUnary fuel
        pure (.unary op right)
      else parseCallExpr fuel

def parseCallExpr : Nat → PM Expr
  | 0 => fuelFail
  | fuel + 1 => do
      let e ← parsePrimary fuel
      parseCallRest fuel e

def parseCallRest : Nat → Expr → PM Expr
  | 0, _ => fuelFail
  | fuel + 1, e => do
      if (← matchK .lparen) then do
        let e' ← finishCall fuel e
        parseCallRest fuel e'
      else if (← matchK .dot) then do
        let name ← consumeK .identKind "Expect property name after '.'."
        parseCallRest fuel (.get e name)
      else pure e

def finishCall : Nat → Expr → PM Expr
  | 0, _ => fuelFail
  | fuel + 1, callee => do
      let args ←
        (do
          if (← checkK .rparen) then pure .nil
          else parseArgs fuel)
      let paren ← consumeK .rparen "Expect ')' after arguments."
      pure (.call callee paren args)

def parseArgs : Nat → PM ExprList
  | 0 => fuelFail
  | fuel + 1 => do
      let first ← parseExpression fuel
      parseArgsRest fuel 1 (fun rest => .cons first rest)

def parseArgsRest : Nat → Nat → (ExprList → ExprList) → PM ExprList
  | 0, _, _ => fuelFail
  | fuel + 1, count, acc => do
      if (← matchK .comma) then do
        if count ≥ 255 then
          reportErr (← peekT) "Can't have more than 255 arguments."
        let next ← parseExpression fuel
        parseArgsRest fuel (count + 1) (fun rest => acc (.cons next rest))
      else pure (acc .nil)

def parsePrimary : Nat → PM Expr
  | 0 => fuelFail
  | fuel + 1 => do
      if (← matchK .kwFalse) then pure (.literal (.bool false))
      else if (← matchK .kwTrue) then pure (.literal (.bool true))
      else if (← matchK .kwNil) then pure (.literal .nil)
      else if (← matchAny [.numberKind, .stringKind]) then do
        let t ← prevT
        pure (.literal (t.literal.getD .nil))
      else if (← matchK .kwSuper) then do
        let keyword ← prevT
        let _ ← consumeK .dot "Expect '.' after 'super'."
        let m ← consumeK .identKind "Expect superclass method name."
        let i ← freshId
        pure (.super keyword m i)
      else if (← matchK .kwThis) then do
        let kw ← prevT
        let i ← freshId
        pure (.this kw i)
      else if (← matchK .identKind) then do
        let name ← prevT
        let i ← freshId
        pure (.variable name i)
      else if (← matchK .lparen) then do
        let e ← parseExpression fuel
        let _ ← consumeK .rparen "Expect ')' after expression."
        pure (.grouping e)
      else raiseP (← peekT) "Expect expression."

end

mutual

/-- `declaration()`: dispatch to class/fun/var/statement; on a thrown parse
error, synchronize and yield no statement, so parsing continues. -/
def parseDeclaration : Nat → PM (Option Stmt)
  | 0 => fuelFail
  | fuel + 1 => do
      let attempt : PM Stmt := do
        if (← matchK .kwClass) then parseClassDecl fuel
        else if (← matchK .kwFun) then parseFunction fuel "function"
        else if (← matchK .kwVar) then parseVarDecl fuel
        else parseStatement fuel
      tryCatch (do pure (some (← attempt)))
        (fun _ => do
          synchronize fuel
          pure none)

def parseVarDecl : Nat → PM Stmt
  | 0 => fuelFail
  | fuel + 1 => do
      let name ← consumeK .identKind "Expect variable name."
      let init ←
        (do
          if (← matchK .equal) then pure (some (← parseExpression fuel))
          else pure none)
      let _ ← consumeK .semicolon "Expect ';' after variable declaration."
      pure (.var name init)

def parseStatement : Nat → PM Stmt
  | 0 => fuelFail
  | fuel + 1 => do
      if (← matchK .kwFor) then parseForStmt fuel
      else if (← matchK .kwIf) then parseIfStmt fuel
      else if (← matchK .kwPrint) then parsePrintStmt fuel
      else if (← matchK .kwReturn) then parseReturnStmt fuel
      else if (← matchK .kwWhile) then parseWhileStmt fuel
      else if (← matchK .lbrace) then do
        pure (.block (← parseBlock fuel))
      else parseExprStmt fuel

/-- `for` is desugared: block of optional initializer and a `while` over the
condition (default `true`) whose body is a block of the original body and
the increment. -/
def parseForStmt : Nat → PM Stmt
  | 0 => fuelFail
  | fuel + 1 => do
      let _ ← consumeK .lparen "Expect '(' after 'for'."
      let init ←
        (do
          if (← matchK .semicolon) then pure none
          else if (← matchK .kwVar) then pure (some (← parseVarDecl fuel))
          else pure (some (← parseExprStmt fuel)))
      let cond ←
        (do
          if (← checkK .semicolon) then pure none
          else pure (some (← parseExpression fuel)))
      let _ ← consumeK .semicolon "Expect ';' after loop condition."
      let inc ←
        (do
          if (← checkK .rparen) then pure none
          else pure (some (← parseExpression fuel)))
      let _ ← consumeK .rparen "Expect ')' after for clauses."
      let body ← parseStatement fuel
      let body1 := match inc with
        | some e => Stmt.block (.cons body (.cons (.expression e) .nil))
        | none => body
      let condE := cond.getD (.literal (.bool true))
      let body2 := Stmt.whileS condE body1
      pure (match init with
        | some i => Stmt.block (.cons i (.cons body2 .nil))
        | none => body2)

def parseIfStmt : Nat → PM Stmt
  | 0 => fuelFail
  | fuel + 1 => do
      let _ ← consumeK .lparen "Expect '(' after 'if'."
      let cond ← parseExpression fuel
      let _ ← consumeK .rparen "Expect ')' after if condition."
      let thenB ← parseStatement fuel
      let elseB ←
        (do
          if (← matchK .kwElse) then pure (some (← parseStatement fuel))
          else pure none)
      pure (.ifS cond thenB elseB)

def parsePrintStmt : Nat → PM Stmt
  | 0 => fuelFail
  | fuel + 1 => do
      let value ← parseExpression fuel
      let _ ← consumeK .semicolon "Expect ';' after value."
      pure (.print value)

def parseReturnStmt : Nat → PM Stmt
  | 0 => fuelFail
  | fuel + 1 => do
      let keyword ← prevT
      let value ←
        (do
          if (← checkK .semicolon) then pure none
          else pure (some (← parseExpression fuel)))
      let _ ← consumeK .semicolon "Expect ';' after return value."
      pure (.ret keyword value)

def parseWhileStmt : Nat → PM Stmt
  | 0 => fuelFail
  | fuel + 1 => do
      let _ ← consumeK .lparen "Expect '(' after 'while'."
      let cond ← parseExpression fuel
      let _ ← consumeK .rparen "Expect ')' after condition."
      let body ← parseStatement fuel
      pure (.whileS cond body)

def parseExprStmt : Nat → PM Stmt
  | 0 => fuelFail
  | fuel + 1 => do
      let e ← parseExpression fuel
      let _ ← consumeK .semicolon "Expect ';' after expression."
      pure (.expression e)

def parseBlock : Nat → PM StmtList
  | 0 => fuelFail
  | fuel + 1 => do
      let stmts ← parseBlockItems fuel
      let _ ← consumeK .rbrace "Expect '\x7d' after block."
      pure stmts

def parseBlockItems : Nat → PM StmtList
  | 0 => fuelFail
  | fuel + 1 => do
      if (← checkK .rbrace) then pure .nil
      else if (← atEnd) then pure .nil
      else do
        let d ← parseDeclaration fuel
        let rest ← parseBlockItems fuel
        pure (match d with
          | some s => .cons s rest
          | none => rest)

def parseFunction : Nat → String → PM Stmt
  | 0, _ => fuelFail
  | fuel + 1, kind => do
      let name ← consumeK .identKind ("Expect " ++ kind ++ " name.")
      let _ ← consumeK .lparen ("Expect '(' after " ++ kind ++ " name.")
      let params ←
        (do
          if (← checkK .rparen) then pure []
          else parseParams fuel 0)
      let _ ← consumeK .rparen "Expect ')' after parameters."
      let _ ← consumeK .lbrace ("Expect '\x7b' before " ++ kind ++ " body.")
      let body ← parseBlock fuel
      pure (.func name params body)

def parseParams : Nat → Nat → PM (List Token)
  | 0, _ => fuelFail
  | fuel + 1, count => do
      if count ≥ 255 then
        reportErr (← peekT) "Can't have more than 255 parameters."
      let p ← consumeK .identKind "Expect parameter name."
      if (← matchK .comma) then do
        let rest ← parseParams fuel (count + 1)
        pure (p :: rest)
      else pure [p]

def parseClassDecl : Nat → PM Stmt
  | 0 => fuelFail
  | fuel + 1 => do
      let name ← consumeK .identKind "Expect class name."
      let sup ←
        (do
          if (← matchK .less) then do
            let supName ← consumeK .identKind "Expect superclass name."
            let i ← freshId
            pure (some (supName, i))
          else pure none)
      let _ ← consumeK .lbrace "Expect '\x7b' before class body."
      let methods ← parseMethods fuel
      let _ ← consumeK .rbrace "Expect '\x7d' after class body."
      pure (.classS name sup methods)

def parseMethods : Nat → PM StmtList
  | 0 => fuelFail
  | fuel + 1 => do
      if (← checkK .rbrace) then pure .nil
      else if (← atEnd) then pure .nil
      else do
        let m ← parseFunction fuel "method"
        let rest ← parseMethods fuel
        pure (.cons m rest)

end

/-- `Parser.parse()`: the statement list accumulated across recoveries. -/
def parseLoop : Nat → PM StmtList
  | 0 => fuelFail
  | fuel + 1 => do
      if (← atEnd) then pure .nil
      else do
        let d ← parseDeclaration fuel
        let rest ← parseLoop fuel
        pure (match d with
          | some s => .cons s rest
          | none => rest)

/-- Run the parser on a token list: the program (the source's `parse` returns
the accumulated list, never `None`, per the spec) plus the recorded errors.
The driver still checks for an absent result, as `run` does. -/
def parseTokens (fuel : Nat) (toks : List Token) :
    Option Program × List String :=
  let init : PState := ⟨toks, mkTok .eof "" none 0, [], 0⟩
  match (parseLoop fuel).run.run init with
  | (.ok prog, st) => (some prog, st.errs)
  | (.error _, st) => (some .nil, st.errs)

/-! ## Resolver.

Modelled from the spec: `resolver.py` is absent from `src/`.  A single pass
over the AST with a stack of scopes (name to an `is_defined` flag), tracking
the enclosing function kind (none/function/method/initializer) and class
kind (none/class/subclass); it records the scope depth of every local
`Variable`/`Assign`/`This`/`Super` use, reports the static errors the spec
lists, and always completes. -/

inductive FunKind where
  | noneK | functionK | methodK | initializerK
deriving DecidableEq, Repr

inductive ClsKind where
  | noneK | classK | subclassK
deriving DecidableEq, Repr

structure RState where
  scopes : List (List (String × Bool))
  depths : List (Nat × Nat)
  errs : List String
  curFun : FunKind
  curCls : ClsKind

abbrev RM (α : Type) := StateM RState α

def rErr (t : Token) (msg : String) : RM Unit :=
  modify fun st => { st with errs := st.errs ++ [parseErrMsg t msg] }

def beginScope : RM Unit :=
  modify fun st => { st with scopes := [] :: st.scopes }

def endScope : RM Unit :=
  modify fun st => { st with scopes := st.scopes.tail }

def scopeInsert (name : String) (b : Bool)
    (scope : List (String × Bool)) : List (String × Bool) :=
  if scope.any (fun p => p.1 = name) then
    scope.map (fun p => if p.1 = name then (p.1, b) else p)
  else scope ++ [(name, b)]

/-- `declare`: mark the name as in-scope-but-undefined; redeclaring in a
non-global scope is an error. -/
def declareName (t : Token) : RM Unit := do
  let st ← get
  match st.scopes with
  | [] => pure ()
  | scope :: rest => do
      if scope.any (fun p => p.1 = t.lexeme) then
        rErr t "Already a variable with this name in this scope."
      modify fun st =>
        { st with scopes := scopeInsert t.lexeme false scope :: rest }

def defineName (t : Token) : RM Unit := do
  let st ← get
  match st.scopes with
  | [] => pure ()
  | scope :: rest =>
      set { st with scopes := scopeInsert t.lexeme true scope :: rest }

/-- Scan scopes innermost-outward; on the first hit record
`depth = distance from innermost` for the node id.  No hit = global. -/
def resolveLocal (nodeId : Nat) (name : String) : RM Unit := do
  let st ← get
  let rec scan : List (List (String × Bool)) → Nat → Option Nat
    | [], _ => none
    | scope :: rest, d =>
        if scope.any (fun p => p.1 = name) then some d
        else scan rest (d + 1)
  match scan st.scopes 0 with
  | some d => set { st with depths := st.depths ++ [(nodeId, d)] }
  | none => pure ()

def rFuelErr : RM Unit :=
  modify fun st => { st with errs := st.errs ++ ["[internal] out of fuel"] }

mutual

def resolveExpr : Nat → Expr → RM Unit
  | 0, _ => rFuelErr
  | fuel + 1, e =>
    match e with
    | .literal _ => pure ()
    | .grouping g => resolveExpr fuel g
    | .unary _ r => resolveExpr fuel r
    | .binary _ l r => do resolveExpr fuel l; resolveExpr fuel r
    | .logical _ l r => do resolveExpr fuel l; resolveExpr fuel r
    | .variable name i => do
        let st ← get
        (match st.scopes with
         | scope :: _ =>
            if (scope.find? (fun p => p.1 = name.lexeme)).any
                (fun p => p.2 = false) then
              rErr name "Can't read local variable in its own initializer."
            else pure ()
         | [] => pure ())
        resolveLocal i name.lexeme
    | .assign name v i => do
        resolveExpr fuel v
        resolveLocal i name.lexeme
    | .call callee _ args => do
        resolveExpr fuel callee
        resolveExprList fuel args
    | .get o _ => resolveExpr fuel o
    | .set o _ v => do
        resolveExpr fuel v
        resolveExpr fuel o
    | .this kw i => do
        let st ← get
        if st.curCls = .noneK then
          rErr kw "Can't use 'this' outside of a class."
        else resolveLocal i "this"
    | .super kw _ i => do
        let st ← get
        if st.curCls = .noneK then
          rErr kw "Can't use 'super' outside of a class."
        else if st.curCls ≠ .subclassK then
          rErr kw "Can't use 'super' in a class with no superclass."
        else resolveLocal i "super"

def resolveExprList : Nat → ExprList → RM Unit
  | 0, _ => rFuelErr
  | fuel + 1, l =>
    match l with
    | .nil => pure ()
    | .cons e r => do resolveExpr fuel e; resolveExprList fuel r

def resolveStmt : Nat → Stmt → RM Unit
  | 0, _ => rFuelErr
  | fuel + 1, s =>
    match s with
    | .expression e => resolveExpr fuel e
    | .print e => resolveExpr fuel e
    | .var name init => do
        declareName name
        (match init with
         | some e => resolveExpr fuel e
         | none => pure ())
        defineName name
    | .block stmts => do
        beginScope
        resolveStmtList fuel stmts
        endScope
    | .ifS cond thenB elseB => do
        resolveExpr fuel cond
        resolveStmt fuel thenB
        (match elseB with
         | some e => resolveStmt fuel e
         | none => pure ())
    | .whileS cond body => do
        resolveExpr fuel cond
        resolveStmt fuel body
    | .func name params body => do
        declareName name
        defineName name
        resolveFunctionBody fuel params body .functionK
    | .ret keyword value => do
        let st ← get
        if st.curFun = .noneK then
          rErr keyword "Can't return from top-level code."
        (match value with
         | some v => do
            let st ← get
            if st.curFun = .initializerK then
              rErr keyword "Can't return a value from an initializer."
            resolveExpr fuel v
         | none => pure ())
    | .classS name sup methods => do
        let enclosing ← (do pure (← get).curCls)
        modify fun st => { st with curCls := .classK }
        declareName name
        defineName name
        (match sup with
         | some (supName, supId) => do
            if name.lexeme = supName.lexeme then
              rErr supName "A class can't inherit from itself."
            modify fun st => { st with curCls := .subclassK }
            resolveExpr fuel (.variable supName supId)
            beginScope
            modify fun st =>
              { st with scopes :=
                  match st.scopes with
                  | scope :: rest => scopeInsert "super" true scope :: rest
                  | [] => [] }
         | none => pure ())
        beginScope
        modify fun st =>
          { st with scopes :=
              match st.scopes with
              | scope :: rest => scopeInsert "this" true scope :: rest
              | [] => [] }
        resolveMethods fuel methods
        endScope
        (match sup with
         | some _ => endScope
         | none => pure ())
        modify fun st => { st with curCls := enclosing }

def resolveStmtList : Nat → StmtList → RM Unit
  | 0, _ => rFuelErr
  | fuel + 1, l =>
    match l with
    | .nil => pure ()
    | .cons s r => do resolveStmt fuel s; resolveStmtList fuel r

/-- Each method is a `Function` node resolved with kind `method`, or
`initializer` when named `init`; the method name itself is not declared. -/
def resolveMethods : Nat → StmtList → RM Unit
  | 0, _ => rFuelErr
  | fuel + 1, l =>
    match l with
    | .nil => pure ()
    | .cons (.func mname params body) r => do
        let kind := if mname.lexeme = "init" then FunKind.initializerK
          else FunKind.methodK
        resolveFunctionBody fuel params body kind
        resolveMethods fuel r
    | .cons _ r => resolveMethods fuel r

/-- `resolveFunction`: new scope with the parameters declared and defined,
body resolved under the given function kind. -/
def resolveFunctionBody : Nat → List Token → StmtList → FunKind → RM Unit
  | 0, _, _, _ => rFuelErr
  | fuel + 1, params, body, kind => do
      let enclosing ← (do pure (← get).curFun)
      modify fun st => { st with curFun := kind }
      beginScope
      (params.forM fun p => do declareName p; defineName p)
      resolveStmtList fuel body
      endScope
      modify fun st => { st with curFun := enclosing }

end

/-- `Resolver.resolve_list`, as the driver calls it: walk the program from
an empty scope stack and return the scope-depth map keyed by node id plus
the recorded static errors. -/
def resolveProgram (fuel : Nat) (p : Program) :
    List (Nat × Nat) × List String :=
  let st := (resolveStmtList fuel p ⟨[], [], [], .noneK, .noneK⟩).2
  (st.depths, st.errs)

/-! ## Interpreter.

Modelled from the spec: `interpret.py` is absent from `src/`.  Runtime values
are the tagged variants the spec lists; environments are frames holding
insertion-ordered bindings plus an optional enclosing frame, kept in a store
and referenced by index (the spec's own recommended arena design), so a
closure is just a frame index.  Classes and instances live in stores of their
own, giving the identity the spec's equality clause requires.  Runtime
errors and `return` are the two unwind channels. -/

inductive Value where
  | num (q : LoxNum)
  | str (s : String)
  | bool (b : Bool)
  | nil
  | nativeClock
  | func (name : String) (params : List Token) (body : StmtList)
      (closure : Nat) (isInit : Bool)
  | classV (cid : Nat)
  | inst (iid : Nat)

structure Frame where
  vars : List (String × Value)
  parent : Option Nat

structure ClassInfo where
  cname : String
  superclass : Option Nat
  methods : List (String × Value)

structure InstInfo where
  cls : Nat
  fields : List (String × Value)

structure IState where
  frames : Array Frame
  classes : Array ClassInfo
  insts : Array InstInfo
  output : List String

/-- The two unwind channels: a runtime error (token for line context plus
message) and return (value as payload). -/
inductive Sig where
  | rterr (t : Token) (msg : String)
  | ret (v : Value)

abbrev IM (α : Type) := ExceptT Sig (StateM IState) α

def throwRT (t : Token) (msg : String) : IM α := throw (.rterr t msg)

def frameOf (st : IState) (env : Nat) : Frame :=
  st.frames.getD env ⟨[], none⟩

def assocSet (name : String) (v : Value) (l : List (String × Value)) :
    List (String × Value) :=
  if l.any (fun p => p.1 = name) then
    l.map (fun p => if p.1 = name then (p.1, v) else p)
  else l ++ [(name, v)]

def newFrame (parent : Option Nat) : IM Nat := do
  let st ← get
  set { st with frames := st.frames.push ⟨[], parent⟩ }
  pure st.frames.size

/-- `define(name, value)`: always insert/overwrite in the given frame. -/
def defineIn (env : Nat) (name : String) (v : Value) : IM Unit :=
  modify fun st =>
    { st with frames :=
        st.frames.modify env (fun f => { f with vars := assocSet name v f.vars }) }

/-- Walk the enclosing chain looking for a binding (fuel bounds the walk;
parents always have smaller indices, so the store size suffices). -/
def chainFind : Nat → IState → Nat → String → Option Nat
  | 0, _, _, _ => none
  | fuel + 1, st, env, name =>
      let f := frameOf st env
      if f.vars.any (fun p => p.1 = name) then some env
      else match f.parent with
        | some p => chainFind fuel st p name
        | none => none

/-- `get(name)`: search the chain; miss is the runtime error
`Undefined variable '<name>'.`. -/
def envGet (t : Token) (env : Nat) : IM Value := do
  let st ← get
  match chainFind (st.frames.size + 1) st env t.lexeme with
  | some i =>
      pure (((frameOf st i).vars.find? (fun p => p.1 = t.lexeme)).map Prod.snd
        |>.getD .nil)
  | none => throwRT t ("Undefined variable '" ++ t.lexeme ++ "'.")

/-- `assign(name)`: like `get`, but writes; no implicit creation. -/
def envAssign (t : Token) (env : Nat) (v : Value) : IM Unit := do
  let st ← get
  match chainFind (st.frames.size + 1) st env t.lexeme with
  | some i =>
      modify fun st =>
        { st with frames :=
            st.frames.modify i (fun f => { f with vars := assocSet t.lexeme v f.vars }) }
  | none => throwRT t ("Undefined variable '" ++ t.lexeme ++ "'.")

/-- Skip exactly `d` enclosing frames. -/
def ancestorIdx : Nat → Nat → IState → Option Nat
  | env, 0, _ => some env
  | env, d + 1, st =>
      match (frameOf st env).parent with
      | some p => ancestorIdx p d st
      | none => none

/-- `get_at(depth, name)`: operate on that frame's map alone. -/
def getAt (t : Token) (env d : Nat) (name : String) : IM Value := do
  let st ← get
  match ancestorIdx env d st with
  | some i =>
      match (frameOf st i).vars.find? (fun p => p.1 = name) with
      | some p => pure p.2
      | none => throwRT t ("Undefined variable '" ++ name ++ "'.")
  | none => throwRT t ("Undefined variable '" ++ name ++ "'.")

/-- `assign_at(depth, name)`. -/
def assignAt (t : Token) (env d : Nat) (name : String) (v : Value) :
    IM Unit := do
  let st ← get
  match ancestorIdx env d st with
  | some i =>
      modify fun st =>
        { st with frames :=
            st.frames.modify i (fun f => { f with vars := assocSet name v f.vars }) }
  | none => throwRT t ("Undefined variable '" ++ name ++ "'.")

/-- Truthiness: `false` and `nil` are falsy; everything else is truthy. -/
def truthy : Value → Bool
  | .nil => false
  | .bool b => b
  | _ => true

/-- Equality per the spec: different variants unequal; numbers, strings and
booleans by value; classes and instances by store identity; callables by
identity, approximated for function values by their captured frame and
name (no claim exercises callable equality). -/
def valueEq : Value → Value → Bool
  | .nil, .nil => true
  | .num a, .num b => a.beq b
  | .str a, .str b => a == b
  | .bool a, .bool b => a == b
  | .classV a, .classV b => a == b
  | .inst a, .inst b => a == b
  | .nativeClock, .nativeClock => true
  | .func n1 _ _ c1 _, .func n2 _ _ c2 _ => c1 == c2 && n1 == n2
  | _, _ => false

/-- `print`'s canonical textual form from the spec: numbers lose a trailing
`.0` when integral, strings are unquoted, callables are `<fn NAME>` or
`<native fn>`, classes print their name, instances `NAME instance`. -/
def stringify (st : IState) : Value → String
  | .nil => "nil"
  | .bool true => "true"
  | .bool false => "false"
  | .num q =>
      if q.isIntegral then toString q.intVal
      else (decimalOfNum q).getD (toString q.num ++ "/" ++ toString q.den)
  | .str s => s
  | .func n _ _ _ _ => "<fn " ++ n ++ ">"
  | .nativeClock => "<native fn>"
  | .classV cid => (st.classes.getD cid ⟨"?", none, []⟩).cname
  | .inst iid =>
      (st.classes.getD (st.insts.getD iid ⟨0, []⟩).cls ⟨"?", none, []⟩).cname
        ++ " instance"

def lookupDepth (depths : List (Nat × Nat)) (i : Nat) : Option Nat :=
  (depths.find? (fun p => p.1 = i)).map Prod.snd

/-- Method lookup along the superclass chain (self then superclass). -/
def findMethod : Nat → IState → Nat → String → Option Value
  | 0, _, _, _ => none
  | fuel + 1, st, cid, name =>
      let ci := st.classes.getD cid ⟨"?", none, []⟩
      match ci.methods.find? (fun p => p.1 = name) with
      | some p => some p.2
      | none =>
          match ci.superclass with
          | some sup => findMethod fuel st sup name
          | none => none

/-- A method fetched from an instance is bound: its closure is extended with
a fresh frame binding `this` to that instance. -/
def bindMethod (m : Value) (iid : Nat) : IM Value := do
  match m with
  | .func name params body closure isInit => do
      let e ← newFrame (some closure)
      defineIn e "this" (.inst iid)
      pure (.func name params body e isInit)
  | _ => pure m

/-- `this` bound in the closure frame of an initializer. -/
def closureThis (closure : Nat) : IM Value := do
  let st ← get
  pure (((frameOf st closure).vars.find? (fun p => p.1 = "this")).map Prod.snd
    |>.getD .nil)

/-- The method table of a class: each `Function` member becomes a function
value closing over the class's method environment; a method named `init` is
flagged as the initializer. -/
def methodValues : StmtList → Nat → List (String × Value)
  | .nil, _ => []
  | .cons (.func n p b) r, env =>
      (n.lexeme, .func n.lexeme p b env (n.lexeme = "init"))
        :: methodValues r env
  | .cons _ r, env => methodValues r env

def fuelRT : IM α :=
  throw (.rterr (mkTok .eof "" none 0) "[internal] out of fuel")

mutual

def evalExpr : Nat → List (Nat × Nat) → Nat → Expr → IM Value
  | 0, _, _, _ => fuelRT
  | fuel + 1, depths, env, e =>
    match e with
    | .literal v =>
        pure (match v with
          | .num q => .num q
          | .str s => .str s
          | .bool b => .bool b
          | .nil => .nil)
    | .grouping g => evalExpr fuel depths env g
    | .unary op r => do
        let rv ← evalExpr fuel depths env r
        if op.kind = .minus then
          match rv with
          | .num q => pure (.num q.neg)
          | _ => throwRT op "Operand must be a number."
        else
          pure (.bool (!truthy rv))
    | .binary op l r => do
        let lv ← evalExpr fuel depths env l
        let rv ← evalExpr fuel depths env r
        match op.kind with
        | .plus =>
            (match lv, rv with
             | .num a, .num b => pure (.num (a.add b))
             | .str a, .str b => pure (.str (a ++ b))
             | _, _ =>
                throwRT op "Operands must be two numbers or two strings.")
        | .minus =>
            (match lv, rv with
             | .num a, .num b => pure (.num (a.sub b))
             | _, _ => throwRT op "Operands must be numbers.")
        | .star =>
            (match lv, rv with
             | .num a, .num b => pure (.num (a.mul b))
             | _, _ => throwRT op "Operands must be numbers.")
        | .slash =>
            (match lv, rv with
             | .num a, .num b => pure (.num (a.div b))
             | _, _ => throwRT op "Operands must be numbers.")
        | .greater =>
            (match lv, rv with
             | .num a, .num b => pure (.bool (LoxNum.blt b a))
             | _, _ => throwRT op "Operands must be numbers.")
        | .greaterEqual =>
            (match lv, rv with
             | .num a, .num b => pure (.bool (LoxNum.ble b a))
             | _, _ => throwRT op "Operands must be numbers.")
        | .less =>
            (match lv, rv with
             | .num a, .num b => pure (.bool (LoxNum.blt a b))
             | _, _ => throwRT op "Operands must be numbers.")
        | .lessEqual =>
            (match lv, rv with
             | .num a, .num b => pure (.bool (LoxNum.ble a b))
             | _, _ => throwRT op "Operands must be numbers.")
        | .equalEqual => pure (.bool (valueEq lv rv))
        | .bangEqual => pure (.bool (!valueEq lv rv))
        | _ => throwRT op "Operands must be numbers."
    | .logical op l r => do
        let lv ← evalExpr fuel depths env l
        if op.kind = .kwOr then
          if truthy lv then pure lv else evalExpr fuel depths env r
        else
          if !truthy lv then pure lv else evalExpr fuel depths env r
    | .variable name i =>
        (match lookupDepth depths i with
         | some d => getAt name env d name.lexeme
         | none => envGet name 0)
    | .assign name v i => do
        let value ← evalExpr fuel depths env v
        (match lookupDepth depths i with
         | some d => assignAt name env d name.lexeme value
         | none => envAssign name 0 value)
        pure value
    | .call callee paren argEs => do
        let cv ← evalExpr fuel depths env callee
        let args ← evalArgs fuel depths env argEs
        match cv with
        | .func name params body closure isInit =>
            if args.length ≠ params.length then
              throwRT paren ("Expected " ++ toString params.length
                ++ " arguments but got " ++ toString args.length ++ ".")
            else callFunction fuel depths name params body closure isInit args
        | .nativeClock =>
            if args.length ≠ 0 then
              throwRT paren ("Expected 0 arguments but got "
                ++ toString args.length ++ ".")
            else pure (.num ⟨0, 1⟩)
        | .classV cid => do
            let st ← get
            let initM := findMethod (st.classes.size + 1) st cid "init"
            let arity := match initM with
              | some (.func _ ps _ _ _) => ps.length
              | _ => 0
            if args.length ≠ arity then
              throwRT paren ("Expected " ++ toString arity
                ++ " arguments but got " ++ toString args.length ++ ".")
            else do
              let st ← get
              let iid := st.insts.size
              set { st with insts := st.insts.push ⟨cid, []⟩ }
              (match initM with
               | some m => do
                  let bound ← bindMethod m iid
                  (match bound with
                   | .func name params body closure isInit => do
                      let _ ← callFunction fuel depths name params body
                        closure isInit args
                      pure ()
                   | _ => pure ())
               | none => pure ())
              pure (.inst iid)
        | _ => throwRT paren "Can only call functions and classes."
    | .get o name => do
        let ov ← evalExpr fuel depths env o
        match ov with
        | .inst iid => do
            let st ← get
            (match (st.insts.getD iid ⟨0, []⟩).fields.find?
                (fun p => p.1 = name.lexeme) with
             | some p => pure p.2
             | none =>
                match findMethod (st.classes.size + 1) st
                    (st.insts.getD iid ⟨0, []⟩).cls name.lexeme with
                | some m => bindMethod m iid
                | none =>
                    throwRT name
                      ("Undefined property '" ++ name.lexeme ++ "'."))
        | _ => throwRT name "Only instances have properties."
    | .set o name v => do
        let ov ← evalExpr fuel depths env o
        match ov with
        | .inst iid => do
            let value ← evalExpr fuel depths env v
            modify fun st =>
              { st with insts :=
                  st.insts.modify iid (fun ii =>
                    { ii with fields := assocSet name.lexeme value ii.fields }) }
            pure value
        | _ => throwRT name "Only instances have fields."
    | .this kw i =>
        (match lookupDepth depths i with
         | some d => getAt kw env d "this"
         | none => envGet kw 0)
    | .super kw m i =>
        (match lookupDepth depths i with
         | some d => do
            let supV ← getAt kw env d "super"
            let thisV ← getAt kw env (d - 1) "this"
            (match supV, thisV with
             | .classV cid, .inst iid => do
                let st ← get
                (match findMethod (st.classes.size + 1) st cid m.lexeme with
                 | some meth => bindMethod meth iid
                 | none =>
                    throwRT m ("Undefined property '" ++ m.lexeme ++ "'."))
             | _, _ => throwRT kw ("Undefined variable 'super'."))
         | none => envGet kw 0)
termination_by structural fuel => fuel

def evalArgs : Nat → List (Nat × Nat) → Nat → ExprList → IM (List Value)
  | 0, _, _, _ => fuelRT
  | fuel + 1, depths, env, l =>
    match l with
    | .nil => pure []
    | .cons e r => do
        let v ← evalExpr fuel depths env e
        let rest ← evalArgs fuel depths env r
        pure (v :: rest)
termination_by structural fuel => fuel

/-- Call a user function: fresh frame enclosed by the closure, parameters
bound positionally, body run; `return` is caught here; an initializer's
result is always the bound `this`. -/
def callFunction : Nat → List (Nat × Nat) → String → List Token →
    StmtList → Nat → Bool → List Value → IM Value
  | 0, _, _, _, _, _, _, _ => fuelRT
  | fuel + 1, depths, _, params, body, closure, isInit, args => do
      let env ← newFrame (some closure)
      ((params.zip args).forM fun pa => defineIn env pa.1.lexeme pa.2)
      let res ← tryCatch
        (do
          execStmtList fuel depths env body
          pure Value.nil)
        (fun sig =>
          match sig with
          | .ret v => pure v
          | .rterr t m => throwRT t m)
      if isInit then closureThis closure else pure res
termination_by structural fuel => fuel

def execStmt : Nat → List (Nat × Nat) → Nat → Stmt → IM Unit
  | 0, _, _, _ => fuelRT
  | fuel + 1, depths, env, s =>
    match s with
    | .expression e => do
        let _ ← evalExpr fuel depths env e
        pure ()
    | .print e => do
        let v ← evalExpr fuel depths env e
        modify fun st => { st with output := st.output ++ [stringify st v] }
    | .var name init => do
        let v ← (match init with
          | some e => evalExpr fuel depths env e
          | none => pure Value.nil)
        defineIn env name.lexeme v
    | .block stmts => do
        let e ← newFrame (some env)
        execStmtList fuel depths e stmts
    | .ifS cond thenB elseB => do
        let c ← evalExpr fuel depths env cond
        if truthy c then execStmt fuel depths env thenB
        else
          (match elseB with
           | some eb => execStmt fuel depths env eb
           | none => pure ())
    | .whileS cond body => do
        let c ← evalExpr fuel depths env cond
        if truthy c then do
          execStmt fuel depths env body
          execStmt fuel depths env (.whileS cond body)
        else pure ()
    | .func name params body =>
        defineIn env name.lexeme (.func name.lexeme params body env false)
    | .ret _ value => do
        let v ← (match value with
          | some e => evalExpr fuel depths env e
          | none => pure Value.nil)
        throw (.ret v)
    | .classS name sup methods => do
        let supV ← (match sup with
          | some (supTok, supId) => do
              let v ← evalExpr fuel depths env (.variable supTok supId)
              (match v with
               | .classV c => pure (some c)
               | _ => throwRT supTok "Superclass must be a class.")
          | none => pure none)
        defineIn env name.lexeme .nil
        let methodEnv ← (match supV with
          | some c => do
              let e ← newFrame (some env)
              defineIn e "super" (.classV c)
              pure e
          | none => pure env)
        let ms := methodValues methods methodEnv
        let st ← get
        let cid := st.classes.size
        set { st with classes := st.classes.push ⟨name.lexeme, supV, ms⟩ }
        envAssign name env (.classV cid)
termination_by structural fuel => fuel

def execStmtList : Nat → List (Nat × Nat) → Nat → StmtList → IM Unit
  | 0, _, _, _ => fuelRT
  | fuel + 1, depths, env, l =>
    match l with
    | .nil => pure ()
    | .cons s r => do
        execStmt fuel depths env s
        execStmtList fuel depths env r
termination_by structural fuel => fuel

end

/-- `Interpreter.visit_statements` at the top of `run`: globals pre-populated
with native `clock`; a runtime error unwinds to here, and is rendered
`<message>\n[line N]` for standard error. -/
def interpretProgram (fuel : Nat) (depths : List (Nat × Nat)) (p : Program) :
    IState × Option String :=
  let st0 : IState := ⟨#[⟨[("clock", .nativeClock)], none⟩], #[], #[], []⟩
  match (execStmtList fuel depths 0 p).run.run st0 with
  | (.ok _, st) => (st, none)
  | (.error (.ret _), st) => (st, none)
  | (.error (.rterr t msg), st) =>
      (st, some (msg ++ "\n[line " ++ toString t.line ++ "]"))

/-! ## Driver, embedded from `src/plox/main.py`.

`Globals.had_error` / `Globals.had_runtime_error` (from the absent
`errors.py`; the spec calls them process-wide flags of the error sink) are
the `Flags` record threaded through.  `fuel` bounds the recursion of the
modelled parser and interpreter — an artifact of the model, with no
counterpart in the Python code.  Standard output and error are lists of
writes: each Python `print(x)` appends one entry. -/

structure Flags where
  hadError : Bool
  hadRuntimeError : Bool
deriving DecidableEq, Repr

/-- What one call of `run(source)` did: the writes to standard output and
standard error, the sink flags afterwards, and which pipeline stages were
reached (`resolved`: the resolver ran; `executed`: the interpreter's
`visit_statements` was reached). -/
structure RunResult where
  stdout : List String
  stderr : List String
  flags : Flags
  resolved : Bool
  executed : Bool
deriving DecidableEq, Repr

/-- `run(source)`: scan, parse; bail if no result or `had_error`; print the
Lisp rendering of the program; resolve; bail if `had_error`; execute on a
freshly constructed interpreter. -/
def runModel (fuel : Nat) (source : String) (g : Flags) : RunResult :=
  let (toks, scanErrs) := scanTokens source
  let g1 : Flags := ⟨g.hadError || !scanErrs.isEmpty, g.hadRuntimeError⟩
  let (result, parseErrs) := parseTokens fuel toks
  let g2 : Flags := ⟨g1.hadError || !parseErrs.isEmpty, g1.hadRuntimeError⟩
  let staticErrs := scanErrs ++ parseErrs
  match result with
  | none => ⟨[], staticErrs, g2, false, false⟩
  | some prog =>
    if g2.hadError then ⟨[], staticErrs, g2, false, false⟩
    else
      let pp := printProgram prog
      let (depths, resErrs) := resolveProgram fuel prog
      let g3 : Flags := ⟨g2.hadError || !resErrs.isEmpty, g2.hadRuntimeError⟩
      if g3.hadError then
        ⟨[pp], staticErrs ++ resErrs, g3, true, false⟩
      else
        let (ist, rtErr) := interpretProgram fuel depths prog
        let g4 : Flags := ⟨g3.hadError, g3.hadRuntimeError || rtErr.isSome⟩
        ⟨pp :: ist.output,
         staticErrs ++ resErrs ++ (match rtErr with
           | some m => [m]
           | none => []),
         g4, true, true⟩

/-- `run_file(f)`: one `run` on the file's text starting from clear flags,
then the exit code: 65 if `had_error`, else 70 if `had_runtime_error`, else
the process ends normally with 0.  (Reading the file is modelled by passing
its contents.) -/
def runFileModel (fuel : Nat) (source : String) : RunResult × Nat :=
  let r := runModel fuel source ⟨false, false⟩
  (r, if r.flags.hadError then 65
    else if r.flags.hadRuntimeError then 70 else 0)

/-- `run_prompt()`'s loop body applied to the lines available on standard
input (EOF after the last): each line is run and then `had_error` — and only
`had_error` — is cleared.  Returns each entry's flags as the iteration began
together with that entry's `RunResult`, plus the flags at EOF. -/
def replRun (fuel : Nat) : List String → Flags →
    List (Flags × RunResult) × Flags
  | [], g => ([], g)
  | line :: rest, g =>
      let r := runModel fuel line g
      let g' : Flags := ⟨false, r.flags.hadRuntimeError⟩
      let (entries, gf) := replRun fuel rest g'
      ((g, r) :: entries, gf)

def runPromptModel (fuel : Nat) (stdin : List String) :
    List (Flags × RunResult) × Flags :=
  replRun fuel stdin ⟨false, false⟩

/-- The behavior of `__main__`, by argument count. -/
inductive MainBehavior where
  | usage (msg : String) (code : Nat)
  | file (r : RunResult) (code : Nat)
  | repl (entries : List (Flags × RunResult))
deriving DecidableEq, Repr

/-- `if __name__ == "__main__"`: more than one argument prints usage and
exits 64; exactly one runs the file (modelled by its contents); none enters
the REPL over the given standard-input lines. -/
def mainModel (fuel : Nat) (args : List String) (fileContents : String)
    (stdin : List String) : MainBehavior :=
  if args.length > 1 then .usage "Usage: plox [script]" 64
  else if args.length = 1 then
    let (r, code) := runFileModel fuel fileContents
    .file r code
  else .repl (runPromptModel fuel stdin).1

/-! ## AST shape.

The "shape" of an AST, for the round-trip property: the tree structure with
names, operator lexemes and literal values, but without source lines or
resolver node ids. -/

mutual

def exprShape : Expr → String
  | .literal v => "(lit " ++ reprStr v ++ ")"
  | .grouping e => "(grouping " ++ exprShape e ++ ")"
  | .unary op r => "(unary " ++ op.lexeme ++ " " ++ exprShape r ++ ")"
  | .binary op l r =>
      "(binary " ++ op.lexeme ++ " " ++ exprShape l ++ " " ++ exprShape r ++ ")"
  | .logical op l r =>
      "(logical " ++ op.lexeme ++ " " ++ exprShape l ++ " "
        ++ exprShape r ++ ")"
  | .variable name _ => "(varE " ++ name.lexeme ++ ")"
  | .assign name v _ => "(assign " ++ name.lexeme ++ " " ++ exprShape v ++ ")"
  | .call callee _ args =>
      "(call " ++ exprShape callee ++ exprListShape args ++ ")"
  | .get o name => "(get " ++ exprShape o ++ " " ++ name.lexeme ++ ")"
  | .set o name v =>
      "(set " ++ exprShape o ++ " " ++ name.lexeme ++ " " ++ exprShape v ++ ")"
  | .this _ _ => "(this)"
  | .super _ m _ => "(super " ++ m.lexeme ++ ")"

def exprListShape : ExprList → String
  | .nil => ""
  | .cons e r => " " ++ exprShape e ++ exprListShape r

def stmtShape : Stmt → String
  | .expression e => "(exprStmt " ++ exprShape e ++ ")"
  | .print e => "(printStmt " ++ exprShape e ++ ")"
  | .var name none => "(varStmt " ++ name.lexeme ++ ")"
  | .var name (some e) => "(varStmt " ++ name.lexeme ++ " " ++ exprShape e ++ ")"
  | .block l => "(blockStmt" ++ stmtListShape l ++ ")"
  | .ifS c t none => "(ifStmt " ++ exprShape c ++ " " ++ stmtShape t ++ ")"
  | .ifS c t (some e) =>
      "(ifStmt " ++ exprShape c ++ " " ++ stmtShape t ++ " "
        ++ stmtShape e ++ ")"
  | .whileS c b => "(whileStmt " ++ exprShape c ++ " " ++ stmtShape b ++ ")"
  | .func name params body =>
      "(funcStmt " ++ name.lexeme ++ " ("
        ++ String.intercalate " " (params.map Token.lexeme) ++ ")"
        ++ stmtListShape body ++ ")"
  | .ret _ none => "(retStmt)"
  | .ret _ (some e) => "(retStmt " ++ exprShape e ++ ")"
  | .classS name none methods =>
      "(classStmt " ++ name.lexeme ++ stmtListShape methods ++ ")"
  | .classS name (some (sup, _)) methods =>
      "(classStmt " ++ name.lexeme ++ " < " ++ sup.lexeme
        ++ stmtListShape methods ++ ")"

def stmtListShape : StmtList → String
  | .nil => ""
  | .cons s r => " " ++ stmtShape s ++ stmtListShape r

end

def programShape (p : Program) : List String := p.toList.map stmtShape

/-- Scan then parse, as the first half of `run` does: the parser's result and
all static errors recorded so far. -/
def parseSource (fuel : Nat) (src : String) : Option Program × List String :=
  let (toks, serrs) := scanTokens src
  let (p, perrs) := parseTokens fuel toks
  (p, serrs ++ perrs)

/-! ## Indent restoration in the pretty printer. -/

mutual

theorem visitExpr_indent : ∀ (e : Expr) (i : Nat), (visitExpr e i).2 = i
  | .literal _, _ => by simp [visitExpr]
  | .grouping e, i => by
      rcases h : visitExpr e i with ⟨s1, i1⟩
      have ih := visitExpr_indent e i
      rw [h] at ih
      simp only [visitExpr, h]
      exact ih
  | .unary _ r, i => by
      rcases h : visitExpr r i with ⟨s1, i1⟩
      have ih := visitExpr_indent r i
      rw [h] at ih
      simp only [visitExpr, h]
      exact ih
  | .binary _ l r, i => by
      rcases h1 : visitExpr l i with ⟨ls, i1⟩
      have ih1 := visitExpr_indent l i
      rw [h1] at ih1
      rcases h2 : visitExpr r i1 with ⟨rs, i2⟩
      have ih2 := visitExpr_indent r i1
      rw [h2] at ih2
      simp only [visitExpr, h1, h2]
      exact ih2.trans ih1
  | .logical _ l r, i => by
      rcases h1 : visitExpr l i with ⟨ls, i1⟩
      have ih1 := visitExpr_indent l i
      rw [h1] at ih1
      rcases h2 : visitExpr r i1 with ⟨rs, i2⟩
      have ih2 := visitExpr_indent r i1
      rw [h2] at ih2
      simp only [visitExpr, h1, h2]
      exact ih2.trans ih1
  | .variable _ _, _ => by simp [visitExpr]
  | .assign _ v _, i => by
      rcases h : visitExpr v i with ⟨s1, i1⟩
      have ih := visitExpr_indent v i
      rw [h] at ih
      simp only [visitExpr, h]
      exact ih
  | .call callee _ args, i => by
      rcases h1 : visitExpr callee i with ⟨cs, i1⟩
      have ih1 := visitExpr_indent callee i
      rw [h1] at ih1
      simp only at ih1
      rcases h2 : visitArgLines args (i1 + 4) with ⟨lines, i2⟩
      have ih2 := visitArgLines_indent args (i1 + 4)
      rw [h2] at ih2
      simp only at ih2
      simp only [visitExpr, h1, h2]
      split
      · simp only
        omega
      · exact ih1
  | .get o _, i => by
      rcases h : visitExpr o i with ⟨s1, i1⟩
      have ih := visitExpr_indent o i
      rw [h] at ih
      simp only [visitExpr, h]
      exact ih
  | .set o _ v, i => by
      rcases h1 : visitExpr o i with ⟨os, i1⟩
      have ih1 := visitExpr_indent o i
      rw [h1] at ih1
      rcases h2 : visitExpr v i1 with ⟨vs, i2⟩
      have ih2 := visitExpr_indent v i1
      rw [h2] at ih2
      simp only [visitExpr, h1, h2]
      exact ih2.trans ih1
  | .this _ _, _ => by simp [visitExpr]
  | .super _ _ _, _ => by simp [visitExpr]

theorem visitArgLines_indent :
    ∀ (l : ExprList) (i : Nat), (visitArgLines l i).2 = i
  | .nil, _ => by simp [visitArgLines]
  | .cons e r, i => by
      rcases h1 : visitExpr e i with ⟨s1, i1⟩
      have ih1 := visitExpr_indent e i
      rw [h1] at ih1
      rcases h2 : visitArgLines r i1 with ⟨rest, i2⟩
      have ih2 := visitArgLines_indent r i1
      rw [h2] at ih2
      simp only [visitArgLines, h1, h2]
      exact ih2.trans ih1

theorem visitStmt_indent : ∀ (s : Stmt) (i : Nat), (visitStmt s i).2 = i
  | .expression e, i => by
      simp only [visitStmt]
      exact visitExpr_indent e i
  | .print e, i => by
      rcases h : visitExpr e i with ⟨s1, i1⟩
      have ih := visitExpr_indent e i
      rw [h] at ih
      simp only [visitStmt, h]
      exact ih
  | .var _ none, _ => by simp [visitStmt]
  | .var _ (some e), i => by
      rcases h : visitExpr e i with ⟨s1, i1⟩
      have ih := visitExpr_indent e i
      rw [h] at ih
      simp only [visitStmt, h]
      exact ih
  | .block stmts, i => by
      rcases h : visitStmtLines stmts (i + 4) with ⟨lines, i1⟩
      have ih := visitStmtLines_indent stmts (i + 4)
      rw [h] at ih
      simp only at ih
      simp only [visitStmt, h]
      split
      · simp only
        omega
      · rfl
  | .ifS cond thenB elseB, i => by
      rcases h1 : visitExpr cond i with ⟨cs, i1⟩
      have ih1 := visitExpr_indent cond i
      rw [h1] at ih1
      simp only at ih1
      rcases h2 : visitStmt thenB (i1 + 4) with ⟨ts, i2⟩
      have ih2 := visitStmt_indent thenB (i1 + 4)
      rw [h2] at ih2
      simp only at ih2
      match elseB with
      | none =>
          simp only [visitStmt, h1, h2]
          omega
      | some e =>
          rcases h3 : visitStmt e (i2 - 4) with ⟨es, i4⟩
          have ih3 := visitStmt_indent e (i2 - 4)
          rw [h3] at ih3
          simp only at ih3
          simp only [visitStmt, h1, h2, h3]
          omega
  | .whileS cond body, i => by
      rcases h1 : visitExpr cond i with ⟨cs, i1⟩
      have ih1 := visitExpr_indent cond i
      rw [h1] at ih1
      simp only at ih1
      rcases h2 : visitStmt body (i1 + 4) with ⟨bs, i2⟩
      have ih2 := visitStmt_indent body (i1 + 4)
      rw [h2] at ih2
      simp only at ih2
      simp only [visitStmt, h1, h2]
      omega
  | .func _ _ body, i => by
      rcases h : visitStmtLines body (i + 4) with ⟨lines, i1⟩
      have ih := visitStmtLines_indent body (i + 4)
      rw [h] at ih
      simp only at ih
      simp only [visitStmt, h]
      omega
  | .ret _ none, _ => by simp [visitStmt]
  | .ret _ (some e), i => by
      rcases h : visitExpr e i with ⟨s1, i1⟩
      have ih := visitExpr_indent e i
      rw [h] at ih
      simp only [visitStmt, h]
      exact ih
  | .classS _ sup methods, i => by
      rcases h : visitStmtLines methods (i + 4) with ⟨lines, i1⟩
      have ih := visitStmtLines_indent methods (i + 4)
      rw [h] at ih
      simp only at ih
      simp only [visitStmt, h]
      split
      · simp only
        omega
      · rfl

theorem visitStmtLines_indent :
    ∀ (l : StmtList) (i : Nat), (visitStmtLines l i).2 = i
  | .nil, _ => by simp [visitStmtLines]
  | .cons s r, i => by
      rcases h1 : visitStmt s i with ⟨s1, i1⟩
      have ih1 := visitStmt_indent s i
      rw [h1] at ih1
      rcases h2 : visitStmtLines r i1 with ⟨rest, i2⟩
      have ih2 := visitStmtLines_indent r i1
      rw [h2] at ih2
      simp only [visitStmtLines, h1, h2]
      exact ih2.trans ih1

end

/-- `print_program` therefore visits every top-level statement with the
indent at zero. -/
theorem printProgramAux_spec : ∀ (p : StmtList),
    printProgramAux p 0 = (p.toList.map (fun s => (visitStmt s 0).1), 0)
  | .nil => by simp [printProgramAux, StmtList.toList]
  | .cons s r => by
      rcases h1 : visitStmt s 0 with ⟨str, i1⟩
      have hi := visitStmt_indent s 0
      rw [h1] at hi
      simp only at hi
      subst hi
      have ih := printProgramAux_spec r
      simp [printProgramAux, StmtList.toList, h1, ih]

/-! ## Driver lemmas. -/

/-- The observable behavior of `run` — its writes, `had_error`, and the
stages reached — does not depend on the incoming `had_runtime_error` flag
(which `run` never reads; it only ORs into it). -/
theorem runModel_rt_obs (fuel : Nat) (src : String) (he b : Bool) :
    (runModel fuel src ⟨he, b⟩).stdout = (runModel fuel src ⟨he, false⟩).stdout
  ∧ (runModel fuel src ⟨he, b⟩).stderr = (runModel fuel src ⟨he, false⟩).stderr
  ∧ (runModel fuel src ⟨he, b⟩).flags.hadError
      = (runModel fuel src ⟨he, false⟩).flags.hadError
  ∧ (runModel fuel src ⟨he, b⟩).resolved
      = (runModel fuel src ⟨he, false⟩).resolved
  ∧ (runModel fuel src ⟨he, b⟩).executed
      = (runModel fuel src ⟨he, false⟩).executed := by
  simp only [runModel]
  rcases scanTokens src with ⟨toks, serrs⟩
  rcases parseTokens fuel toks with ⟨res, perrs⟩
  rcases res with _ | prog
  · simp
  · simp only
    split
    · simp
    · split
      · simp
      · simp

/-- Every line of input gets one REPL entry. -/
theorem replRun_length : ∀ (fuel : Nat) (lines : List String) (g : Flags),
    (replRun fuel lines g).1.length = lines.length
  | _, [], _ => rfl
  | fuel, _ :: rest, g => by
      simp [replRun, replRun_length fuel rest]

/-- The first REPL entry starts with the incoming flags. -/
theorem replRun_head (fuel : Nat) (lines : List String) (g : Flags)
    (e : Flags × RunResult)
    (h : (replRun fuel lines g).1.head? = some e) : e.1 = g := by
  match lines with
  | [] => simp [replRun] at h
  | l :: rest =>
      simp [replRun] at h
      rw [← h]

/-- Each REPL entry's observable behavior equals that of running its line in
isolation from clear flags: every entry begins with `had_error` false and a
freshly constructed interpreter, and the surviving `had_runtime_error` flag
is never read by `run`. -/
theorem replRun_entry_obs : ∀ (fuel : Nat) (lines : List String) (b : Bool)
    (i : Nat) (e : Flags × RunResult),
    (replRun fuel lines ⟨false, b⟩).1.get? i = some e →
    ∃ line, lines.get? i = some line ∧
      e.2.stdout = (runModel fuel line ⟨false, false⟩).stdout ∧
      e.2.stderr = (runModel fuel line ⟨false, false⟩).stderr ∧
      e.2.flags.hadError = (runModel fuel line ⟨false, false⟩).flags.hadError
  | fuel, [], b, i, e => by
      intro h
      simp [replRun] at h
  | fuel, l :: rest, b, 0, e => by
      intro h
      simp [replRun] at h
      obtain ⟨obs1, obs2, obs3, _, _⟩ := runModel_rt_obs fuel l false b
      refine ⟨l, rfl, ?_, ?_, ?_⟩ <;> rw [← h]
      · exact obs1
      · exact obs2
      · exact obs3
  | fuel, l :: rest, b, n + 1, e => by
      intro h
      simp only [replRun, List.get?] at h
      exact replRun_entry_obs fuel rest
        (runModel fuel l ⟨false, b⟩).flags.hadRuntimeError n e h

/-- Between consecutive REPL entries, `had_error` is cleared and
`had_runtime_error` is carried over unchanged from the entry just run. -/
theorem replRun_consecutive : ∀ (fuel : Nat) (lines : List String)
    (g : Flags) (i : Nat) (e1 e2 : Flags × RunResult),
    (replRun fuel lines g).1.get? i = some e1 →
    (replRun fuel lines g).1.get? (i + 1) = some e2 →
    e2.1.hadError = false
      ∧ e2.1.hadRuntimeError = e1.2.flags.hadRuntimeError
  | fuel, [], g, i, e1, e2 => by
      intro h1 h2
      simp [replRun] at h1
  | fuel, l :: rest, g, 0, e1, e2 => by
      intro h1 h2
      simp [replRun] at h1 h2
      have hh : (replRun fuel rest
          ⟨false, (runModel fuel l g).flags.hadRuntimeError⟩).1.head?
            = some e2 := by
        rw [List.head?_eq_getElem?]
        exact h2
      have he2 := replRun_head fuel rest _ e2 hh
      rw [he2, ← h1]
      exact ⟨rfl, rfl⟩
  | fuel, l :: rest, g, n + 1, e1, e2 => by
      intro h1 h2
      simp only [replRun, List.get?] at h1 h2
      exact replRun_consecutive fuel rest _ n e1 e2 h1 h2

/-! ## The claims. -/

/-- Claim C1, counterexample: on `print 1 + 2 * 3;` the run's standard
output is not the single write `7` — `run` first prints the Lisp rendering
of the parsed program. -/
theorem claim_C1_counterexample :
    (runModel 100 "print 1 + 2 * 3;" ⟨false, false⟩).stdout ≠ ["7"] := by
  decide

/-- Claim C1 as amended: the run writes the Lisp pretty-printed program and
then the printed value, so standard output is exactly
`(print (+ 1.0 (* 2.0 3.0)))` followed by `7`, with nothing on standard
error and exit code 0 in file mode. -/
theorem claim_C1_amended :
    (runModel 100 "print 1 + 2 * 3;" ⟨false, false⟩).stdout
      = ["(print (+ 1.0 (* 2.0 3.0)))", "7"]
  ∧ (runModel 100 "print 1 + 2 * 3;" ⟨false, false⟩).stderr = []
  ∧ (runFileModel 100 "print 1 + 2 * 3;").2 = 0 := by
  decide

/-- Claim C2, counterexample: in the REPL, `var a = 1;` followed by
`print a;` does not print `1` — `run` constructs a fresh `Interpreter` for
every entry, so the second line fails with `Undefined variable 'a'.`. -/
theorem claim_C2_counterexample :
    ((replRun 200 ["var a = 1;\n", "print a;\n"] ⟨false, false⟩).1.map
        (fun e => (e.2.stdout, e.2.stderr)))
      = [(["(var a 1.0)"], []),
         (["(print a)"], ["Undefined variable 'a'.\n[line 1]"])] := by
  decide

/-- Claim C2 as amended: after an error the next REPL entry does proceed
(the loop always runs every line), but global state does not survive: each
entry behaves exactly like its line run alone on a fresh interpreter with
clear flags, so a global defined by an earlier line is not visible later. -/
theorem claim_C2_amended (fuel : Nat) (lines : List String) (i : Nat)
    (e : Flags × RunResult)
    (h : (replRun fuel lines ⟨false, false⟩).1.get? i = some e) :
    ∃ line, lines.get? i = some line ∧
      e.2.stdout = (runModel fuel line ⟨false, false⟩).stdout ∧
      e.2.stderr = (runModel fuel line ⟨false, false⟩).stderr ∧
      e.2.flags.hadError = (runModel fuel line ⟨false, false⟩).flags.hadError :=
  replRun_entry_obs fuel lines false i e h

theorem claim_C2_witness :
    ∃ line, ["var a = 1;\n", "print a;\n"].get? 1 = some line ∧
      (["(print a)"] : List String)
          = (runModel 200 line ⟨false, false⟩).stdout ∧
      (["Undefined variable 'a'.\n[line 1]"] : List String)
          = (runModel 200 line ⟨false, false⟩).stderr ∧
      false = (runModel 200 line ⟨false, false⟩).flags.hadError :=
  claim_C2_amended 200 ["var a = 1;\n", "print a;\n"] 1
    (⟨false, false⟩,
      ⟨["(print a)"], ["Undefined variable 'a'.\n[line 1]"],
        ⟨false, true⟩, true, true⟩)
    (by decide)

/-- Claim C3: `run_file` exits 65 when `had_error` is set, 70 when only
`had_runtime_error` is set, 0 when neither; and the driver exits 64 on more
than one command-line argument. -/
theorem claim_C3_exit_codes (fuel : Nat) (src : String) (args : List String)
    (contents : String) (stdin : List String) :
    ((runFileModel fuel src).1.flags.hadError = true →
      (runFileModel fuel src).2 = 65)
  ∧ ((runFileModel fuel src).1.flags.hadError = false →
      (runFileModel fuel src).1.flags.hadRuntimeError = true →
      (runFileModel fuel src).2 = 70)
  ∧ ((runFileModel fuel src).1.flags.hadError = false →
      (runFileModel fuel src).1.flags.hadRuntimeError = false →
      (runFileModel fuel src).2 = 0)
  ∧ (args.length > 1 →
      mainModel fuel args contents stdin = .usage "Usage: plox [script]" 64) := by
  refine ⟨?_, ?_, ?_, ?_⟩
  · intro h
    simp only [runFileModel] at h ⊢
    simp [h]
  · intro h1 h2
    simp only [runFileModel] at h1 h2 ⊢
    simp [h1, h2]
  · intro h1 h2
    simp only [runFileModel] at h1 h2 ⊢
    simp [h1, h2]
  · intro h
    simp [mainModel, h]

theorem claim_C3_witness :
    (runFileModel 100 "var x = 1; x();").2 = 70
  ∧ (runFileModel 100 "var;").2 = 65
  ∧ (runFileModel 100 "print 1;").2 = 0
  ∧ mainModel 100 ["a", "b"] "" [] = .usage "Usage: plox [script]" 64 :=
  ⟨(claim_C3_exit_codes 100 "var x = 1; x();" [] "" []).2.1 (by decide)
      (by decide),
   (claim_C3_exit_codes 100 "var;" [] "" []).1 (by decide),
   (claim_C3_exit_codes 100 "print 1;" [] "" []).2.2.1 (by decide) (by decide),
   (claim_C3_exit_codes 100 "" ["a", "b"] "" []).2.2.2 (by decide)⟩

/-- Claim C4: a recorded static error skips execution — if `had_error` ends
the run true, `visit_statements` was never reached, and if scanning or
parsing recorded an error, the run neither resolves nor executes. -/
theorem claim_C4_static_errors_skip_execution (fuel : Nat) (src : String)
    (g : Flags) :
    ((runModel fuel src g).flags.hadError = true →
      (runModel fuel src g).executed = false)
  ∧ ((scanTokens src).2 ≠ [] ∨ (parseTokens fuel (scanTokens src).1).2 ≠ [] →
      (runModel fuel src g).resolved = false
        ∧ (runModel fuel src g).executed = false) := by
  simp only [runModel]
  rcases h1 : scanTokens src with ⟨toks, serrs⟩
  rcases h2 : parseTokens fuel toks with ⟨res, perrs⟩
  rcases res with _ | prog
  · simp
  · simp only
    split
    · exact ⟨fun _ => rfl, fun _ => ⟨rfl, rfl⟩⟩
    · rename_i hok
      have hse : serrs = [] ∧ perrs = [] := by
        rcases serrs with _ | ⟨a, as⟩
        · rcases perrs with _ | ⟨b, bs⟩
          · exact ⟨rfl, rfl⟩
          · exact absurd (by simp) hok
        · exact absurd (by simp) hok
      obtain ⟨hs, hp⟩ := hse
      subst hs hp
      split
      · refine ⟨fun _ => rfl, fun hx => ?_⟩
        simp at hx
      · rename_i hok2
        refine ⟨fun hcontr => ?_, fun hx => ?_⟩
        · exact absurd hcontr hok2
        · simp at hx

theorem claim_C4_witness :
    ((scanTokens "var;").2 ≠ []
        ∨ (parseTokens 100 (scanTokens "var;").1).2 ≠ [])
  ∧ (runModel 100 "var;" ⟨false, false⟩).resolved = false
  ∧ (runModel 100 "var;" ⟨false, false⟩).executed = false :=
  ⟨Or.inr (by decide),
   (claim_C4_static_errors_skip_execution 100 "var;" ⟨false, false⟩).2
     (Or.inr (by decide))⟩

/-- Claim C5, counterexample: after `x;` (a runtime error) the next REPL
entry begins with `had_runtime_error` still true — `run_prompt` resets only
`had_error`, so the flags are not both false at the start of the next
line. -/
theorem claim_C5_counterexample :
    ((replRun 200 ["x;\n", "1;\n"] ⟨false, false⟩).1.map Prod.fst)
      = [⟨false, false⟩, ⟨false, true⟩] := by
  decide

/-- Claim C5 as amended: between consecutive REPL entries only `had_error`
is reset; `had_runtime_error` enters the next iteration exactly as the
previous entry left it. -/
theorem claim_C5_amended (fuel : Nat) (lines : List String) (i : Nat)
    (e1 e2 : Flags × RunResult)
    (h1 : (replRun fuel lines ⟨false, false⟩).1.get? i = some e1)
    (h2 : (replRun fuel lines ⟨false, false⟩).1.get? (i + 1) = some e2) :
    e2.1.hadError = false
      ∧ e2.1.hadRuntimeError = e1.2.flags.hadRuntimeError :=
  replRun_consecutive fuel lines ⟨false, false⟩ i e1 e2 h1 h2

theorem claim_C5_witness :
    ((⟨false, true⟩ : Flags).hadError = false)
  ∧ (⟨false, true⟩ : Flags).hadRuntimeError
      = (runModel 200 "x;\n" ⟨false, false⟩).flags.hadRuntimeError :=
  claim_C5_amended 200 ["x;\n", "1;\n"] 0
    (⟨false, false⟩, runModel 200 "x;\n" ⟨false, false⟩)
    (⟨false, true⟩,
      ⟨["1.0"], [], ⟨false, true⟩, true, true⟩)
    (by decide) (by decide)

/-- Claim C6: the driver dispatches on argument count — zero arguments runs
the REPL over every line of standard input until EOF, one argument runs the
file, two or more print usage and exit 64 with nothing run. -/
theorem claim_C6_dispatch (fuel : Nat) (args : List String)
    (contents : String) (stdin : List String) :
    (args.length = 0 →
      mainModel fuel args contents stdin = .repl (runPromptModel fuel stdin).1
      ∧ (runPromptModel fuel stdin).1.length = stdin.length)
  ∧ (args.length = 1 →
      mainModel fuel args contents stdin
        = .file (runFileModel fuel contents).1 (runFileModel fuel contents).2)
  ∧ (2 ≤ args.length →
      mainModel fuel args contents stdin = .usage "Usage: plox [script]" 64) := by
  refine ⟨?_, ?_, ?_⟩
  · intro h
    refine ⟨by simp [mainModel, h], ?_⟩
    exact replRun_length fuel stdin ⟨false, false⟩
  · intro h
    simp only [mainModel, h]
    rfl
  · intro h
    have hgt : args.length > 1 := h
    simp [mainModel, hgt]

theorem claim_C6_witness :
    (mainModel 100 [] "" ["1;\n"]
        = .repl (runPromptModel 100 ["1;\n"]).1
      ∧ (runPromptModel 100 ["1;\n"]).1.length = 1)
  ∧ mainModel 100 ["f"] "print 1;" []
      = .file (runFileModel 100 "print 1;").1 (runFileModel 100 "print 1;").2
  ∧ mainModel 100 ["a", "b"] "" [] = .usage "Usage: plox [script]" 64 :=
  ⟨(claim_C6_dispatch 100 [] "" ["1;\n"]).1 (by decide),
   (claim_C6_dispatch 100 ["f"] "print 1;" []).2.1 (by decide),
   (claim_C6_dispatch 100 ["a", "b"] "" []).2.2 (by decide)⟩

/-- Claim C7, counterexample: `x;` parses cleanly to one expression
statement, pretty-prints to `x`, and re-parsing that text records a parse
error and yields the empty statement list — not an AST of the same shape. -/
theorem claim_C7_counterexample :
    (parseSource 100 "x;").2 = []
  ∧ ((parseSource 100 "x;").1.map programShape) = some ["(exprStmt (varE x))"]
  ∧ ((parseSource 100 "x;").1.map printProgram) = some "x"
  ∧ (parseSource 100 "x").2 ≠ []
  ∧ ((parseSource 100 "x").1.map programShape) = some [] := by
  decide

/-- Claim C7 as amended: for every successfully parsed program whose
statement list is empty, pretty-printing and re-parsing the printed text
yields an AST of the same (empty) shape with no error recorded.  The
unrestricted round-trip claim is false: the counterexample `x;` parses
cleanly, pretty-prints to the Lisp-style text `x`, and re-parsing that text
records a parse error and yields a different shape. -/
theorem claim_C7_amended (fuel fuel2 : Nat) (src : String) (prog : Program)
    (hres : (parseSource fuel src).1 = some prog)
    (hempty : prog.toList = [])
    (hf : 0 < fuel2) :
    (parseSource fuel2 (printProgram prog)).1.map programShape
        = some (programShape prog)
  ∧ (parseSource fuel2 (printProgram prog)).2 = [] := by
  have hp : prog = .nil := by
    cases prog with
    | nil => rfl
    | cons s r => simp [StmtList.toList] at hempty
  subst hp
  obtain ⟨f, rfl⟩ : ∃ f, fuel2 = f + 1 := ⟨fuel2 - 1, by omega⟩
  exact ⟨rfl, rfl⟩

theorem claim_C7_witness :
    (parseSource 1 (printProgram StmtList.nil)).1.map programShape
        = some (programShape StmtList.nil)
  ∧ (parseSource 1 (printProgram StmtList.nil)).2 = [] :=
  claim_C7_amended 100 1 "" StmtList.nil rfl rfl (by decide)

/-- Claim C8: whenever scanning and parsing record no error, `run` writes
the Lisp pretty-printed program as its first write to standard output,
before resolution and execution. -/
theorem claim_C8_pprint_first (fuel : Nat) (src : String) (g : Flags)
    (prog : Program)
    (hg : g.hadError = false)
    (hres : (parseTokens fuel (scanTokens src).1).1 = some prog)
    (hscan : (scanTokens src).2 = [])
    (hparse : (parseTokens fuel (scanTokens src).1).2 = []) :
    (runModel fuel src g).stdout.head? = some (printProgram prog) := by
  simp only [runModel]
  rcases h1 : scanTokens src with ⟨toks, serrs⟩
  rw [h1] at hres hparse hscan
  simp only at hres hparse hscan
  rcases h2 : parseTokens fuel toks with ⟨res, perrs⟩
  rw [h2] at hres hparse
  simp only at hres hparse
  subst hscan hparse
  rw [hres]
  simp only [hg, List.isEmpty_nil, Bool.not_true, Bool.or_self,
    Bool.or_false, Bool.false_or]
  split
  · simp_all
  · split <;> simp

theorem claim_C8_witness :
    (runModel 100 "1;" ⟨false, false⟩).stdout.head?
      = some (printProgram
          ((parseTokens 100 (scanTokens "1;").1).1.getD .nil)) :=
  claim_C8_pprint_first 100 "1;" ⟨false, false⟩
    ((parseTokens 100 (scanTokens "1;").1).1.getD .nil)
    rfl rfl rfl rfl

/-- Claim C9: every visit method of the printer restores `self.indent`, and
`print_program` consequently renders each top-level statement with the
indent at zero. -/
theorem claim_C9_indent_restored :
    (∀ (e : Expr) (i : Nat), (visitExpr e i).2 = i)
  ∧ (∀ (s : Stmt) (i : Nat), (visitStmt s i).2 = i)
  ∧ (∀ p : Program, printProgram p
      = String.intercalate "\n" (p.toList.map (fun s => (visitStmt s 0).1))) :=
  ⟨visitExpr_indent, visitStmt_indent, fun p => by
    simp [printProgram, printProgramAux_spec p]⟩

/-- Claim C10: `visit_unary` interpolates the operator `Token` object itself
(its `str()` form), while `visit_binary` and `visit_logical` use the
token's lexeme; the two renderings differ, e.g. on the `-` token. -/
theorem claim_C10_unary_token_str (op : Token) (l r : Expr) (i : Nat) :
    (visitExpr (.unary op r) i).1
      = "(" ++ tokenStr op ++ " " ++ (visitExpr r i).1 ++ ")"
  ∧ (visitExpr (.binary op l r) i).1
      = "(" ++ op.lexeme ++ " " ++ (visitExpr l i).1 ++ " "
          ++ (visitExpr r (visitExpr l i).2).1 ++ ")"
  ∧ (visitExpr (.logical op l r) i).1
      = "(" ++ op.lexeme ++ " " ++ (visitExpr l i).1 ++ " "
          ++ (visitExpr r (visitExpr l i).2).1 ++ ")"
  ∧ tokenStr (mkTok .minus "-" none 1) ≠ (mkTok .minus "-" none 1).lexeme := by
  refine ⟨?_, ?_, ?_, by decide⟩
  · rcases h : visitExpr r i with ⟨s1, i1⟩
    simp [visitExpr, h]
  · rcases h1 : visitExpr l i with ⟨ls, i1⟩
    rcases h2 : visitExpr r i1 with ⟨rs, i2⟩
    simp [visitExpr, h1, h2]
  · rcases h1 : visitExpr l i with ⟨ls, i1⟩
    rcases h2 : visitExpr r i1 with ⟨rs, i2⟩
    simp [visitExpr, h1, h2]

end Plox
